import Mathlib

/-!
Shallow embedding of the Risk-Assessment questionnaire engine.

The definitions below are translated from the repository source:
* `types.ts` — the `Answer` and `Question` data model;
* `App.tsx` (`handleAnswer`, `initializeQuiz`) — the per-session queue
  engine: scoring, the jump rule for initial questions, the standard
  follow-up splice and the special multi-injection for question 9;
* `QuestionEditor.tsx` — `renumberQuestions`, `handleAddQuestion`,
  `handleDeleteQuestion`;
* `data/quizData.ts` — the reference question pool `ALL_QUESTIONS`.

JavaScript numbers used as question ids and scores are modelled as `Int`.
The mutable recursion in `renumberQuestions` is modelled with explicit
fuel: a `none` result means the source recursion does not terminate
(it would recurse beyond any bound, i.e. stack-overflow).
-/

namespace RiskAssessment

/-- `export type Answer = 'Yes' | 'No' | 'N/A'` from `types.ts`. -/
inductive Answer
  | yes
  | no
  | na
deriving DecidableEq, Repr

/-- The `controlType` union from `types.ts`. -/
inductive ControlType
  | buttons
  | text
  | yes_no
  | multi_state_select
  | work_comp_code
  | numeric
  | business_info
deriving DecidableEq, Repr

/-- The `riskPoints` record of a question: one integer per answer token. -/
structure RiskPoints where
  yes : Int
  no : Int
  na : Int
deriving DecidableEq, Repr

def RiskPoints.get (r : RiskPoints) : Answer → Int
  | .yes => r.yes
  | .no => r.no
  | .na => r.na

/-- One entry of the `followUp` partial record: the key may be absent,
map to the empty string `''`, or map to a numeric target id. -/
inductive FollowUpEntry
  | absent
  | blank
  | target (n : Int)
deriving DecidableEq, Repr

/-- The `followUp?: Partial<Record<Answer, number | ''>>` field; an
absent object behaves exactly like an object with all keys absent. -/
structure FollowUps where
  yes : FollowUpEntry
  no : FollowUpEntry
  na : FollowUpEntry
deriving DecidableEq, Repr

def FollowUps.get (f : FollowUps) : Answer → FollowUpEntry
  | .yes => f.yes
  | .no => f.no
  | .na => f.na

/-- The `Question` interface from `types.ts`.  A missing `isInitial`
is falsy in every use site, so it is modelled as `false`. -/
structure Question where
  id : Int
  text : String
  number : String
  isInitial : Bool
  controlType : Option ControlType
  riskPoints : RiskPoints
  followUp : FollowUps
deriving DecidableEq, Repr

/-- A value submitted through `handleAnswer`: every control submits
either a string (button tokens included — they are plain strings in the
source) or a list of strings. -/
inductive AnswerValue
  | s (v : String)
  | l (vs : List String)
deriving DecidableEq, Repr

/-- `answer === 'Yes' || answer === 'No' || answer === 'N/A'` in
`handleAnswer`, returning which token matched. -/
def tokenAnswer : AnswerValue → Option Answer
  | .s "Yes" => some .yes
  | .s "No" => some .no
  | .s "N/A" => some .na
  | _ => none

/-- `!currentQuestion.controlType || controlType === 'buttons' ||
controlType === 'yes_no'` from `handleAnswer`. -/
def isButton (q : Question) : Bool :=
  match q.controlType with
  | none => true
  | some .buttons => true
  | some .yes_no => true
  | _ => false

/-- The gate guarding all button logic in `handleAnswer`:
`isButtonAnswer && (answer === 'Yes' || answer === 'No' || answer === 'N/A')`. -/
def gateToken (q : Question) (v : AnswerValue) : Option Answer :=
  if isButton q then tokenAnswer v else none

/-- Lookup in the `questionsMap` built by `initializeQuiz` with
`reduce((acc, q) => { acc[q.id] = q; return acc })`: on duplicate ids the
later entry overwrites the earlier one. -/
def qlookup : List Question → Int → Option Question
  | [], _ => none
  | q :: rest, i =>
    match qlookup rest i with
    | some r => some r
    | none => if q.id = i then some q else none

/-- `nextQueue.find(q => q.id === id)` used for the idempotency checks. -/
def memId (l : List Question) (i : Int) : Bool :=
  l.any (fun q => decide (q.id = i))

/-- `GENERAL_SAFETY_IDS` from `handleAnswer`. -/
def generalSafetyIds : List Int := [100, 101, 104, 105, 106, 107]

/-- `INDUSTRY_QUESTION_SETS` from `handleAnswer`, with
`INDUSTRY_QUESTION_SETS[id] || []` for a missing key. -/
def industryTable (i : Int) : List Int :=
  if i = 1 then 200 :: generalSafetyIds
  else if i = 2 then 300 :: 200 :: generalSafetyIds
  else if i = 3 then 400 :: 401 :: generalSafetyIds
  else if i = 4 then 200 :: generalSafetyIds
  else if i = 5 then 400 :: 500 :: generalSafetyIds
  else if i = 6 then generalSafetyIds
  else []

/-- The per-respondent session state held in React state by `App`. -/
structure SessionState where
  pool : List Question
  queue : List Question
  currentIndex : Nat
  score : Int
  complete : Bool
  answers : List (Int × AnswerValue)
deriving DecidableEq, Repr

/-- `setAnswers(prev => ({ ...prev, [currentQuestion.id]: answer }))`:
record-overwrite keyed by question id. -/
def putAnswer : List (Int × AnswerValue) → Int → AnswerValue → List (Int × AnswerValue)
  | [], i, v => [(i, v)]
  | (j, w) :: rest, i, v =>
    if j = i then (j, v) :: rest else (j, w) :: putAnswer rest i v

def getAnswer : List (Int × AnswerValue) → Int → Option AnswerValue
  | [], _ => none
  | (j, w) :: rest, i => if j = i then some w else getAnswer rest i

/-- The standard follow-up splice of `handleAnswer`: a truthy
`followUp[answer]` (a nonzero number) that resolves in the map and is not
yet queued is inserted right after `currentIndex`. -/
def followUpSplice (pool : List Question) (i : Nat) (q : Question) (a : Answer)
    (nq : List Question) : List Question :=
  match q.followUp.get a with
  | .target n =>
    if n ≠ 0 then
      match qlookup pool n with
      | some fq =>
        if memId nq fq.id then nq
        else nq.take (i + 1) ++ fq :: nq.drop (i + 1)
      | none => nq
    else nq
  | _ => nq

/-- `Array.isArray(answer) && answer.includes('California')`. -/
def isCalifornia (v : AnswerValue) : Bool :=
  match v with
  | .l vs => vs.contains "California"
  | _ => false

/-- One candidate of the special multi-injection: look the id up in the
map and keep the question only when it is not already queued (the
`questionsMap[n] && !nextQueue.find(...)` pattern of `handleAnswer`). -/
def candidateInject (pool : List Question) (nq : List Question) (n : Int) : List Question :=
  match qlookup pool n with
  | some cq => if memId nq cq.id then [] else [cq]
  | none => []

/-- The special multi-injection block of `handleAnswer` that runs when
`currentQuestion.id === 9`: conditionally question 600 (California),
then unconditionally question 700, both spliced after `currentIndex`. -/
def specialInject (pool : List Question) (i : Nat) (v : AnswerValue)
    (nq : List Question) : List Question :=
  let inj1 : List Question :=
    if isCalifornia v then candidateInject pool nq 600 else []
  let inj2 : List Question := candidateInject pool nq 700
  let toInject := inj1 ++ inj2
  if toInject.isEmpty then nq
  else nq.take (i + 1) ++ toInject ++ nq.drop (i + 1)

/-- The final advance of `handleAnswer`: `setScore`, `setQuestionQueue`,
then either increment `currentIndex` or set `quizComplete`. -/
def advance (s : SessionState) (nq : List Question) (sc : Int)
    (an : List (Int × AnswerValue)) : SessionState :=
  if s.currentIndex + 1 < nq.length then
    { s with queue := nq, score := sc, answers := an,
             currentIndex := s.currentIndex + 1 }
  else
    { s with queue := nq, score := sc, answers := an, complete := true }

/-- `handleAnswer` from `App.tsx` as a state transformer.  A `none`
result models the crash on `currentQuestion.id` when
`questionQueue[currentQuestionIndex]` is `undefined`. -/
def stepAnswer (s : SessionState) (v : AnswerValue) : Option SessionState :=
  match s.queue.get? s.currentIndex with
  | none => none
  | some q =>
    let answers2 := putAnswer s.answers q.id v
    match gateToken q v with
    | some a =>
      let newScore := s.score + q.riskPoints.get a
      if q.isInitial ∧ a = Answer.yes then
        let injectIds := industryTable q.id
        if injectIds.isEmpty then
          some { s with score := newScore, answers := answers2, complete := true }
        else
          some { s with
            queue := s.queue.take (s.currentIndex + 1) ++ injectIds.filterMap (qlookup s.pool),
            currentIndex := s.currentIndex + 1,
            score := newScore,
            answers := answers2 }
      else
        let nq1 := followUpSplice s.pool s.currentIndex q a s.queue
        let nq2 := if q.id = 9 then specialInject s.pool s.currentIndex v nq1 else nq1
        some (advance s nq2 newScore answers2)
    | none =>
      let nq2 := if q.id = 9 then specialInject s.pool s.currentIndex v s.queue else s.queue
      some (advance s nq2 s.score answers2)

/-- `initializeQuiz` from `App.tsx`: the queue starts as the initial
questions, or the first pool entry as a defensive fallback. -/
def initQuiz (pool : List Question) : SessionState :=
  let initialQueue := pool.filter (·.isInitial)
  let q := if initialQueue.isEmpty ∧ ¬ pool.isEmpty then pool.take 1 else initialQueue
  { pool := pool, queue := q, currentIndex := 0, score := 0,
    complete := false, answers := [] }

def queueIds (s : SessionState) : List Int := s.queue.map (·.id)

/-! ## Editor-side operations (`QuestionEditor.tsx`) -/

/-- The `followUp` target ids contributed by one question in
`renumberQuestions` (only values with `typeof id === 'number'` count;
the key iteration order of the record literal is Yes, No, N/A). -/
def targetsOf (q : Question) : List Int :=
  (match q.followUp.yes with | .target n => [n] | _ => []) ++
  (match q.followUp.no with | .target n => [n] | _ => []) ++
  (match q.followUp.na with | .target n => [n] | _ => [])

def hasId (qs : List Question) (i : Int) : Bool :=
  qs.any (fun q => decide (q.id = i))

/-- `if (!parentNode.children.some(c => c.question.id === id)) push`. -/
def pushUnique (acc : List Int) (t : Int) : List Int :=
  if t ∈ acc then acc else acc ++ [t]

/-- The `children` list (as ids) that `renumberQuestions` builds for the
node of id `p`: every existing follow-up target of every question whose
id is `p`, deduplicated by id in insertion order. -/
def childrenOf (qs : List Question) (p : Int) : List Int :=
  qs.foldl
    (fun acc q =>
      if q.id = p then ((targetsOf q).filter (fun t => hasId qs t)).foldl pushUnique acc
      else acc)
    []

/-- The `childIds` set of `renumberQuestions`. -/
def allChildIds (qs : List Question) : List Int :=
  qs.foldl
    (fun acc q => ((targetsOf q).filter (fun t => hasId qs t)).foldl pushUnique acc)
    []

/-- `questions.findIndex(q => q.id === id)` used as the sort key
(`-1` when absent, exactly as in the source). -/
def ordOf (qs : List Question) (i : Int) : Int :=
  match qs.findIdx? (fun q => decide (q.id = i)) with
  | some k => (k : Int)
  | none => -1

def insertByOrd (key : Int → Int) (x : Int) : List Int → List Int
  | [] => [x]
  | y :: rest => if key y ≤ key x then y :: insertByOrd key x rest else x :: y :: rest

/-- The stable ascending sort `sort((a, b) => indexA - indexB)`. -/
def sortByOrd (key : Int → Int) (l : List Int) : List Int :=
  l.foldl (fun acc x => insertByOrd key x acc) []

/-- `` prefix ? `${prefix}.${index + 1}` : `${index + 1}` ``. -/
def mkNum (pre : String) (k : Nat) : String :=
  if pre = "" then toString k else pre ++ "." ++ toString k

def putNum : List (Int × String) → Int → String → List (Int × String)
  | [], i, n => [(i, n)]
  | (j, w) :: rest, i, n =>
    if j = i then (j, n) :: rest else (j, w) :: putNum rest i n

def getNum : List (Int × String) → Int → Option String
  | [], _ => none
  | (j, w) :: rest, i => if j = i then some w else getNum rest i

/-- The recursive `assignNumbers` traversal of `renumberQuestions`,
made total with fuel.  The accumulator holds the id-to-number updates
performed on `questionMap`; the worklist is the already sorted sibling
list, numbered from `k`.  The source has no cycle guard, so on a cyclic
graph the recursion is unbounded and every fuel value yields `none`. -/
def assignGo (qs : List Question) :
    Nat → List (Int × String) → List Int → String → Nat → Option (List (Int × String))
  | 0, _, _, _, _ => none
  | _ + 1, m, [], _, _ => some m
  | f + 1, m, i :: rest, pre, k =>
    let num := mkNum pre k
    let m1 := if hasId qs i then putNum m i num else m
    match (if (childrenOf qs i).isEmpty then some m1
           else assignGo qs f m1 (sortByOrd (ordOf qs) (childrenOf qs i)) num 1) with
    | none => none
    | some m2 => assignGo qs f m2 rest pre (k + 1)

/-- `questions.map(q => questionMap.get(q.id)!)`: the returned question
is the (last-wins) map entry for the id, with its `number` replaced by
the assigned one when the traversal reached it. -/
def applyNums (qs : List Question) (nums : List (Int × String)) (q : Question) : Question :=
  match qlookup qs q.id with
  | some b => { b with number := (getNum nums b.id).getD b.number }
  | none => q

/-- `renumberQuestions` from `QuestionEditor.tsx`, with fuel for the
unguarded recursive traversal. -/
def renumberQuestions (fuel : Nat) (qs : List Question) : Option (List Question) :=
  if qs.isEmpty then some []
  else
    let childIds := allChildIds qs
    let roots := (qs.filter (fun q => ! decide (q.id ∈ childIds))).map (·.id)
    match assignGo qs fuel [] (sortByOrd (ordOf qs) roots) "" 1 with
    | none => none
    | some nums => some (qs.map (applyNums qs nums))

/-- `Math.max(...questions.map(q => q.id)) + 1`, or `1` on an empty pool. -/
def nextId (qs : List Question) : Int :=
  match qs.map (·.id) with
  | [] => 1
  | i :: rest => rest.foldl max i + 1

/-- The fresh question literal built by `handleAddQuestion`: no
`isInitial`, no `controlType`, no `followUp`, zero risk points. -/
def mkNewQuestion (i : Int) : Question :=
  { id := i, number := "", text := "New question text...",
    isInitial := false, controlType := none,
    riskPoints := { yes := 0, no := 0, na := 0 },
    followUp := { yes := .absent, no := .absent, na := .absent } }

/-- `handleAddQuestion` from `QuestionEditor.tsx`. -/
def handleAddQuestion (fuel : Nat) (qs : List Question) : Option (List Question) :=
  renumberQuestions fuel (qs ++ [mkNewQuestion (nextId qs)])

def stripFollowUpEntry (x : Int) (e : FollowUpEntry) : FollowUpEntry :=
  match e with
  | .target n => if n = x then .absent else .target n
  | e => e

/-- The per-question cleanup in `handleDeleteQuestion`: delete every
`followUp` key whose value equals the deleted id. -/
def stripFollowUp (x : Int) (q : Question) : Question :=
  { q with followUp :=
      { yes := stripFollowUpEntry x q.followUp.yes,
        no := stripFollowUpEntry x q.followUp.no,
        na := stripFollowUpEntry x q.followUp.na } }

/-- `updatedQuestionsWithoutTarget` in `handleDeleteQuestion`. -/
def deleteQuestionPre (qs : List Question) (x : Int) : List Question :=
  (qs.filter (fun q => decide (q.id ≠ x))).map (stripFollowUp x)

/-- `handleDeleteQuestion` from `QuestionEditor.tsx` (the state update;
the `window.confirm` and selection bookkeeping are UI-only). -/
def handleDeleteQuestion (fuel : Nat) (qs : List Question) (x : Int) : Option (List Question) :=
  renumberQuestions fuel (deleteQuestionPre qs x)

/-! ## The reference pool (`data/quizData.ts`) -/

def mkQ (i : Int) (num : String) (ini : Bool) (ct : Option ControlType) (txt : String)
    (ry rn rna : Int) (fu : FollowUps) : Question :=
  { id := i, text := txt, number := num, isInitial := ini, controlType := ct,
    riskPoints := { yes := ry, no := rn, na := rna }, followUp := fu }

def fuNone : FollowUps := { yes := .absent, no := .absent, na := .absent }

def fuYes (n : Int) : FollowUps := { yes := .target n, no := .absent, na := .absent }

/-- `ALL_QUESTIONS` from `data/quizData.ts` (texts abbreviated;
they carry no behavior). -/
def ALL_QUESTIONS : List Question :=
  [ mkQ 7 "1" true (some .text) "Number of years in business" 0 0 0 fuNone,
    mkQ 8 "2" true (some .text) "Number of employees" 0 0 0 fuNone,
    mkQ 9 "3" true (some .multi_state_select) "What states do you operate in?" 0 0 0 fuNone,
    mkQ 1 "4" true none "Construction industry?" 5 0 0 fuNone,
    mkQ 2 "5" true none "Roofing industry?" 10 0 0 fuNone,
    mkQ 3 "6" true none "Manufacturing industry?" 5 0 0 fuNone,
    mkQ 4 "7" true none "Transportation industry?" 8 0 0 fuNone,
    mkQ 5 "8" true none "Healthcare industry?" 5 0 0 fuNone,
    mkQ 6 "9" true none "Office-based or lower-risk industry" 0 0 0 fuNone,
    mkQ 100 "" false none "Documented safety program?" 0 10 0 fuNone,
    mkQ 101 "" false none "Claims in the past three years?" 5 0 0 (fuYes 102),
    mkQ 102 "" false none "More than two claims?" 10 0 0 (fuYes 103),
    mkQ 103 "" false none "Corrective actions implemented?" 0 10 0 fuNone,
    mkQ 104 "" false none "Formal accident investigation process?" 0 5 0 fuNone,
    mkQ 105 "" false none "OSHA compliant?" 0 15 0 fuNone,
    mkQ 106 "" false none "Regular safety audits?" 0 5 0 fuNone,
    mkQ 107 "" false none "Employees working alone or remote?" 5 0 0 fuNone,
    mkQ 200 "" false none "Company vehicles operated?" 2 0 0 (fuYes 201),
    mkQ 201 "" false none "Fleet safety program and MVR checks?" 0 10 0 fuNone,
    mkQ 300 "" false none "Heights over 15 feet?" 10 0 0 (fuYes 301),
    mkQ 301 "" false none "Fall protection plan and harnesses?" 0 15 0 fuNone,
    mkQ 400 "" false none "Lifting more than 50 pounds?" 5 0 0 fuNone,
    mkQ 401 "" false none "Heavy machinery operated?" 2 0 0 (fuYes 402),
    mkQ 402 "" false none "Operator safety training provided?" 0 10 0 fuNone,
    mkQ 500 "" false none "Hazardous materials handled?" 2 0 0 (fuYes 501),
    mkQ 501 "" false none "Hazard Communication Program and SDS access?" 0 10 0 fuNone,
    mkQ 600 "" false (some .yes_no) "California programs in place?" 0 15 0 fuNone,
    mkQ 700 "" false (some .work_comp_code) "Workers compensation class codes" 0 0 0 fuNone ]

/-! ## Basic lemmas about the embedding -/

theorem advance_score (s : SessionState) (nq : List Question) (sc : Int)
    (an : List (Int × AnswerValue)) : (advance s nq sc an).score = sc := by
  unfold advance; split <;> rfl

theorem advance_queue (s : SessionState) (nq : List Question) (sc : Int)
    (an : List (Int × AnswerValue)) : (advance s nq sc an).queue = nq := by
  unfold advance; split <;> rfl

theorem advance_answers (s : SessionState) (nq : List Question) (sc : Int)
    (an : List (Int × AnswerValue)) : (advance s nq sc an).answers = an := by
  unfold advance; split <;> rfl

theorem memId_eq_false {l : List Question} {i : Int} (h : memId l i = false) :
    ∀ q ∈ l, q.id ≠ i := by
  intro q hq
  unfold memId at h
  rw [Bool.eq_false_iff] at h
  intro hid
  exact h (List.any_eq_true.mpr ⟨q, hq, by simp [hid]⟩)

theorem qlookup_id {qs : List Question} {i : Int} {b : Question}
    (h : qlookup qs i = some b) : b.id = i := by
  induction qs with
  | nil => cases h
  | cons q rest ih =>
    unfold qlookup at h
    cases hr : qlookup rest i with
    | some r => rw [hr] at h; cases h; exact ih hr
    | none =>
      rw [hr] at h
      by_cases hid : q.id = i
      · simp only [hid, if_pos rfl] at h; cases h; exact hid
      · simp [hid] at h

theorem qlookup_mem {qs : List Question} {i : Int} {b : Question}
    (h : qlookup qs i = some b) : b ∈ qs := by
  induction qs with
  | nil => cases h
  | cons q rest ih =>
    unfold qlookup at h
    cases hr : qlookup rest i with
    | some r => rw [hr] at h; cases h; exact List.mem_cons_of_mem _ (ih hr)
    | none =>
      rw [hr] at h
      by_cases hid : q.id = i
      · simp only [hid, if_pos rfl] at h; cases h; exact List.mem_cons_self _ _
      · simp [hid] at h

theorem getAnswer_putAnswer (an : List (Int × AnswerValue)) (i : Int) (v : AnswerValue) :
    getAnswer (putAnswer an i v) i = some v := by
  induction an with
  | nil => simp [putAnswer, getAnswer]
  | cons p rest ih =>
    obtain ⟨j, w⟩ := p
    by_cases hj : j = i
    · simp [putAnswer, getAnswer, hj]
    · simp [putAnswer, getAnswer, hj, ih]

/-- **C7**: for every session state in which every configured risk-points
value is non-negative (as in the reference configuration), the score
after a `handleAnswer` call is greater than or equal to the score before
it: the score never decreases. -/
theorem c7_score_monotone (s : SessionState)
    (hnn : ∀ q ∈ s.queue, 0 ≤ q.riskPoints.yes ∧ 0 ≤ q.riskPoints.no ∧ 0 ≤ q.riskPoints.na)
    (v : AnswerValue) (t : SessionState) (hstep : stepAnswer s v = some t) :
    s.score ≤ t.score := by
  unfold stepAnswer at hstep
  cases hq : s.queue.get? s.currentIndex with
  | none => rw [hq] at hstep; cases hstep
  | some q =>
    rw [hq] at hstep
    dsimp only at hstep
    have hqmem : q ∈ s.queue := List.get?_mem hq
    cases hg : gateToken q v with
    | none =>
      rw [hg] at hstep
      simp only [Option.some.injEq] at hstep
      rw [← hstep, advance_score]
    | some a =>
      rw [hg] at hstep
      have hrp : 0 ≤ q.riskPoints.get a := by
        rcases hnn q hqmem with ⟨h1, h2, h3⟩
        cases a <;> simpa [RiskPoints.get]
      simp only at hstep
      split at hstep
      · split at hstep <;>
          (simp only [Option.some.injEq] at hstep; rw [← hstep]; simp; omega)
      · simp only [Option.some.injEq] at hstep
        rw [← hstep, advance_score]; omega

/-- Witness for C7 at the reference pool: answering the Construction
question (id 1) with Yes from the initial queue. -/
def sC7 : SessionState :=
  { pool := ALL_QUESTIONS, queue := (initQuiz ALL_QUESTIONS).queue,
    currentIndex := 3, score := 0, complete := false, answers := [] }

def tC7 : SessionState := (stepAnswer sC7 (AnswerValue.s "Yes")).getD sC7

theorem c7_witness : sC7.score ≤ tC7.score :=
  c7_score_monotone sC7 (by decide) (AnswerValue.s "Yes") tC7 (by decide)

/-! ## C2: the renumbering traversal on a cyclic follow-up graph -/

def cycQ (i t : Int) : Question := mkQ i "" false none "" 0 0 0 (fuYes t)

/-- A pool whose follow-up edges form the cycle 2 → 3 → 2, reachable
from the root question 1 (1 → 2). -/
def cyclicQs : List Question := [cycQ 1 2, cycQ 2 3, cycQ 3 2]

theorem cyclic_assign_aux : ∀ f : Nat,
    (∀ m pre k, assignGo cyclicQs f m [2] pre k = none) ∧
    (∀ m pre k, assignGo cyclicQs f m [3] pre k = none) := by
  intro f
  induction f with
  | zero => exact ⟨fun _ _ _ => rfl, fun _ _ _ => rfl⟩
  | succ f ih =>
    constructor
    · intro m pre k
      have h2 : childrenOf cyclicQs 2 = [3] := rfl
      have he : (childrenOf cyclicQs 2).isEmpty = false := rfl
      have hs : sortByOrd (ordOf cyclicQs) [3] = [3] := rfl
      simp only [assignGo, he, Bool.false_eq_true, if_false, h2, hs, ih.2, List.isEmpty_cons]
    · intro m pre k
      have h3 : childrenOf cyclicQs 3 = [2] := rfl
      have he : (childrenOf cyclicQs 3).isEmpty = false := rfl
      have hs : sortByOrd (ordOf cyclicQs) [2] = [2] := rfl
      simp only [assignGo, he, Bool.false_eq_true, if_false, h3, hs, ih.1, List.isEmpty_cons]

/-- **C2**: contrary to the claim, `renumberQuestions` does not guard
against cycles: on the pool `cyclicQs`, whose follow-up edges form a
cycle reachable from a root, its traversal recurses beyond any bound
(`none` for every fuel value), i.e. the source stack-overflows instead
of stopping the descent on a revisit. -/
theorem c2_renumber_diverges_on_cycle :
    ∀ fuel : Nat, renumberQuestions fuel cyclicQs = none := by
  intro fuel
  cases fuel with
  | zero => rfl
  | succ f =>
    have hqne : cyclicQs.isEmpty = false := rfl
    have hroots : sortByOrd (ordOf cyclicQs)
        ((cyclicQs.filter (fun q => ! decide (q.id ∈ allChildIds cyclicQs))).map (·.id)) = [1] := rfl
    have h1 : childrenOf cyclicQs 1 = [2] := rfl
    have he1 : (childrenOf cyclicQs 1).isEmpty = false := rfl
    have hs2 : sortByOrd (ordOf cyclicQs) [2] = [2] := rfl
    have hid1 : (cycQ 1 2).id = 1 := rfl
    simp only [renumberQuestions, hqne, Bool.false_eq_true, if_false, hroots, assignGo,
      hid1, he1, h1, hs2, (cyclic_assign_aux f).1, List.isEmpty_cons]

/-! ## C4: a jump whose classification ids are all missing from the pool -/

/-- A pool holding only the initial classification question 1: its
classification entry `[200, 100, 101, 104, 105, 106, 107]` is non-empty
but resolves to no pool question at all. -/
def poolC4 : List Question := [mkQ 1 "" true none "" 5 0 0 fuNone]

/-- **C4**: the claimed invariant fails.  Answering Yes to question 1
when every classification id is missing from the pool leaves the session
not complete with `currentIndex = 1` equal to the queue length — a
running state with no current question (the source then renders a stuck
"Loading Questions..." view and any further `handleAnswer` would crash). -/
theorem c4_jump_dangling_breaks_running :
    (industryTable 1).isEmpty = false ∧
    ((industryTable 1).all fun n => (qlookup poolC4 n).isNone) = true ∧
    (stepAnswer (initQuiz poolC4) (AnswerValue.s "Yes")).map
      (fun t => (t.complete, t.currentIndex, t.queue.length)) = some (false, 1, 1) := by
  exact ⟨rfl, by decide, by decide⟩

/-! ## Concrete pools exhibiting the gaps between spec and code -/

def fillerQ (i : Int) : Question := mkQ i "" false none "" 0 0 0 fuNone

/-- A pool in which question 100 — a member of the classification list of
question 1 — is itself marked initial, so it is already in the presented
prefix when the jump fires. -/
def poolC1 : List Question :=
  [mkQ 100 "" true none "" 0 0 0 fuNone, mkQ 1 "" true none "" 5 0 0 fuNone]

/-- **C1 counterexample**: answering question 100 with No and then
question 1 with Yes makes the jump append its classification list to the
answered prefix without any queue-membership check, so id 100 appears
twice in the queue. -/
theorem c1_counterexample :
    ((stepAnswer (initQuiz poolC1) (AnswerValue.s "No")).bind
        (fun u => stepAnswer u (AnswerValue.s "Yes"))).map
      (fun t => (queueIds t, decide (queueIds t).Nodup)) = some (([100, 1, 100], false)) := by
  decide

/-- An initial classification question whose control type is `text`. -/
def q1text : Question := mkQ 1 "" true (some .text) "" 5 0 0 fuNone

def poolC3 : List Question :=
  [q1text, fillerQ 200, fillerQ 100, fillerQ 101, fillerQ 104,
   fillerQ 105, fillerQ 106, fillerQ 107]

/-- **C3 counterexample**: question 1 is initial, its classification
entry is non-empty and fully resolvable in the pool, and the submitted
value is the string Yes — yet because its control type is `text` the
button gate fails, no jump happens, the queue stays `[1]` and the session
completes instead of pointing at the first injected question. -/
theorem c3_counterexample :
    q1text.isInitial = true ∧
    (industryTable 1).isEmpty = false ∧
    ((industryTable 1).all fun n => (qlookup poolC3 n).isSome) = true ∧
    (stepAnswer (initQuiz poolC3) (AnswerValue.s "Yes")).map
      (fun t => (decide (t.queue =
          (initQuiz poolC3).queue.take 1 ++ (industryTable 1).filterMap (qlookup poolC3)),
        t.currentIndex, t.complete)) = some ((false, 0, true)) := by
  decide

def q50 : Question := mkQ 50 "" false none "" 5 0 0 fuNone

/-- A session already marked complete, with its current question still in
range (exactly how `handleAnswer` leaves the state when it completes). -/
def sComplete : SessionState :=
  { pool := [q50], queue := [q50], currentIndex := 0, score := 0,
    complete := true, answers := [] }

/-- **C5 counterexample**: calling `handleAnswer` on a completed session
neither leaves the score unchanged nor fails: the call succeeds and the
score changes from 0 to 5. -/
theorem c5_counterexample :
    sComplete.complete = true ∧ sComplete.score = 0 ∧
    (stepAnswer sComplete (AnswerValue.s "Yes")).map (fun t => t.score) = some 5 := by
  decide

/-- A non-initial binary question that happens to carry the special id 9,
with a follow-up edge to question 20. -/
def q9b : Question := mkQ 9 "" false none "" 0 0 0 (fuYes 20)

def q700f : Question := mkQ 700 "" false (some .work_comp_code) "" 0 0 0 fuNone

def poolC6 : List Question := [q9b, fillerQ 20, q700f]

/-- **C6 counterexample**: all hypotheses of the claim hold (non-initial
binary question, follow-up target 20 present in the pool and not queued),
yet because the question carries the special id 9 the unconditional
injection of question 700 lands at `currentIndex + 1` first: the new
queue is `[9, 700, 20]`, so the follow-up is not immediately after the
question and the rest of the queue is not unchanged. -/
theorem c6_counterexample :
    q9b.isInitial = false ∧ isButton q9b = true ∧
    q9b.followUp.get Answer.yes = FollowUpEntry.target 20 ∧
    (qlookup poolC6 20).isSome = true ∧
    memId (initQuiz poolC6).queue 20 = false ∧
    (stepAnswer (initQuiz poolC6) (AnswerValue.s "Yes")).map
      (fun t => t.queue.map (·.id)) = some [9, 700, 20] := by
  decide

/-- The reference state-selection question: id 9, multi-state control. -/
def q9m : Question := mkQ 9 "" false (some .multi_state_select) "" 0 0 0 fuNone

def poolC9 : List Question := [q9m, q700f]

/-- **C9 counterexample**: submitting the button token Yes to the
non-binary question 9 is exactly the claim's example of an incompatible
value; the answer is recorded and scoring is skipped, but branching is
not: the special injection still splices question 700 into the queue. -/
theorem c9_counterexample :
    gateToken q9m (AnswerValue.s "Yes") = none ∧
    (stepAnswer (initQuiz poolC9) (AnswerValue.s "Yes")).map
      (fun t => (t.queue.map (·.id), getAnswer t.answers 9, t.score))
      = some (([9, 700], some (AnswerValue.s "Yes"), 0)) := by
  decide

/-! ## Amended claims: C5, C9, C6 -/

theorem advance_complete_true (s : SessionState) (nq : List Question) (sc : Int)
    (an : List (Int × AnswerValue)) :
    advance { s with complete := true } nq sc an = { advance s nq sc an with complete := true } := by
  unfold advance
  dsimp only
  by_cases h : s.currentIndex + 1 < nq.length <;> simp [h]

/-- **C5 (amended)**: `handleAnswer` never consults the completion flag:
a call after `complete = true` re-processes the current question exactly
as in the running state — score, queue, index and answers change by the
normal rules and no error is raised — and the session merely stays
complete. -/
theorem c5_step_ignores_complete (s : SessionState) (v : AnswerValue) (t : SessionState)
    (hstep : stepAnswer s v = some t) :
    stepAnswer { s with complete := true } v = some { t with complete := true } := by
  unfold stepAnswer at hstep ⊢
  dsimp only at hstep ⊢
  cases hq : s.queue.get? s.currentIndex with
  | none => rw [hq] at hstep; cases hstep
  | some q =>
    rw [hq] at hstep
    dsimp only at hstep ⊢
    cases hg : gateToken q v with
    | none =>
      rw [hg] at hstep
      simp only [Option.some.injEq] at hstep ⊢
      rw [← hstep, advance_complete_true]
    | some a =>
      rw [hg] at hstep
      dsimp only at hstep ⊢
      by_cases hj : q.isInitial = true ∧ a = Answer.yes
      · rw [if_pos hj] at hstep ⊢
        by_cases hti : (industryTable q.id).isEmpty
        · rw [if_pos hti] at hstep ⊢
          simp only [Option.some.injEq] at hstep ⊢
          rw [← hstep]
        · rw [if_neg hti] at hstep ⊢
          simp only [Option.some.injEq] at hstep ⊢
          rw [← hstep]
      · rw [if_neg hj] at hstep ⊢
        simp only [Option.some.injEq] at hstep ⊢
        rw [← hstep, advance_complete_true]

def sC5w : SessionState :=
  { pool := [q50], queue := [q50], currentIndex := 0, score := 3,
    complete := false, answers := [] }

def tC5w : SessionState := (stepAnswer sC5w (AnswerValue.s "No")).getD sC5w

theorem c5_witness :
    stepAnswer { sC5w with complete := true } (AnswerValue.s "No")
      = some { tC5w with complete := true } :=
  c5_step_ignores_complete sC5w (AnswerValue.s "No") tC5w (by decide)

/-- **C9 (amended)**: when the submitted value is incompatible with the
current question's control type (it fails the button-token gate), the
value is still recorded under the question's id, the score is unchanged,
no follow-up or jump runs, and no error is raised; the queue is
unchanged as well — except for the designated question id 9, whose
special multi-injection runs regardless of the value's shape. -/
theorem c9_incompatible_recorded_skipped (s : SessionState) (v : AnswerValue) (q : Question)
    (hq : s.queue.get? s.currentIndex = some q)
    (hg : gateToken q v = none) :
    (stepAnswer s v).isSome = true ∧
    (stepAnswer s v).map (fun t => getAnswer t.answers q.id) = some (some v) ∧
    (stepAnswer s v).map (fun t => t.score) = some s.score ∧
    (q.id = 9 → True) ∧
    (¬ q.id = 9 → (stepAnswer s v).map (fun t => t.queue) = some s.queue) := by
  unfold stepAnswer
  rw [hq]
  dsimp only
  rw [hg]
  refine ⟨rfl, ?_, ?_, fun _ => trivial, ?_⟩
  · simp [advance_answers, getAnswer_putAnswer]
  · simp [advance_score]
  · intro h9
    rw [if_neg h9]
    simp [advance_queue]

def sC9w : SessionState := initQuiz poolC3

theorem c9_witness :
    (stepAnswer sC9w (AnswerValue.s "Yes")).isSome = true ∧
    (stepAnswer sC9w (AnswerValue.s "Yes")).map (fun t => getAnswer t.answers q1text.id)
      = some (some (AnswerValue.s "Yes")) ∧
    (stepAnswer sC9w (AnswerValue.s "Yes")).map (fun t => t.score) = some sC9w.score ∧
    (q1text.id = 9 → True) ∧
    (¬ q1text.id = 9 →
      (stepAnswer sC9w (AnswerValue.s "Yes")).map (fun t => t.queue) = some sC9w.queue) :=
  c9_incompatible_recorded_skipped sC9w (AnswerValue.s "Yes") q1text (by decide) (by decide)

theorem advance_currentIndex_of_lt (s : SessionState) (nq : List Question) (sc : Int)
    (an : List (Int × AnswerValue)) (h : s.currentIndex + 1 < nq.length) :
    (advance s nq sc an).currentIndex = s.currentIndex + 1 := by
  unfold advance; rw [if_pos h]

/-- **C6 (amended)**: for a non-initial binary question answered with a
token whose follow-up entry is a truthy (nonzero) target id that exists
in the pool and is not yet queued, and whose id is not the designated
special id 9, the follow-up question is spliced immediately after the
current position and the rest of the queue is unchanged. -/
theorem c6_followup_inserted_after (s : SessionState) (v : AnswerValue) (q : Question)
    (a : Answer) (n : Int) (fq : Question) (t : SessionState)
    (hq : s.queue.get? s.currentIndex = some q)
    (hini : q.isInitial = false)
    (hbtn : isButton q = true)
    (htok : tokenAnswer v = some a)
    (hfu : q.followUp.get a = FollowUpEntry.target n)
    (hn : ¬ n = 0)
    (hfind : qlookup s.pool n = some fq)
    (hmem : memId s.queue n = false)
    (h9 : ¬ q.id = 9)
    (hstep : stepAnswer s v = some t) :
    t.queue = s.queue.take (s.currentIndex + 1) ++ fq :: s.queue.drop (s.currentIndex + 1) ∧
    t.currentIndex = s.currentIndex + 1 := by
  have hgate : gateToken q v = some a := by unfold gateToken; rw [hbtn, if_pos rfl]; exact htok
  have hfqid : fq.id = n := qlookup_id hfind
  have hilt : s.currentIndex < s.queue.length := (List.get?_eq_some.mp hq).1
  have hsplice : followUpSplice s.pool s.currentIndex q a s.queue
      = s.queue.take (s.currentIndex + 1) ++ fq :: s.queue.drop (s.currentIndex + 1) := by
    unfold followUpSplice
    rw [hfu]
    dsimp only
    rw [if_pos hn, hfind]
    dsimp only
    rw [hfqid, hmem]
    simp
  unfold stepAnswer at hstep
  rw [hq] at hstep
  dsimp only at hstep
  rw [hgate] at hstep
  dsimp only at hstep
  rw [if_neg (by simp [hini])] at hstep
  rw [if_neg h9, hsplice] at hstep
  simp only [Option.some.injEq] at hstep
  have hlen : s.currentIndex + 1 <
      (s.queue.take (s.currentIndex + 1) ++ fq :: s.queue.drop (s.currentIndex + 1)).length := by
    simp [List.length_append, List.length_take, List.length_drop]
    omega
  constructor
  · rw [← hstep, advance_queue]
  · rw [← hstep, advance_currentIndex_of_lt _ _ _ _ hlen]

def poolC6w : List Question := [mkQ 40 "" false none "" 0 2 0
  { yes := .absent, no := .target 41, na := .absent }, fillerQ 41]

def sC6w : SessionState := initQuiz poolC6w

def tC6w : SessionState := (stepAnswer sC6w (AnswerValue.s "No")).getD sC6w

theorem c6_witness :
    tC6w.queue = sC6w.queue.take 1 ++ fillerQ 41 :: sC6w.queue.drop 1 ∧
    tC6w.currentIndex = 0 + 1 := by
  have h := c6_followup_inserted_after sC6w (AnswerValue.s "No")
    (mkQ 40 "" false none "" 0 2 0 { yes := .absent, no := .target 41, na := .absent })
    Answer.no 41 (fillerQ 41) tC6w (by decide) (by decide) (by decide) (by decide)
    (by decide) (by decide) (by decide) (by decide) (by decide) (by decide)
  exact h

/-! ## Amended claim C3 -/

/-- **C3 (amended)**: if the current question is initial, of a button
control type (absent, `buttons` or `yes_no`), its classification entry
is non-empty and every member id resolves in the pool, then answering
Yes replaces everything after the already-presented prefix with exactly
the resolved classification list, and `currentIndex` advances by one so
that it points at the first injected question. -/
theorem c3_jump_replaces_tail (s : SessionState) (q : Question) (t : SessionState)
    (hq : s.queue.get? s.currentIndex = some q)
    (hbtn : isButton q = true)
    (hini : q.isInitial = true)
    (hne : (industryTable q.id).isEmpty = false)
    (hall : ∀ n ∈ industryTable q.id, (qlookup s.pool n).isSome)
    (hstep : stepAnswer s (AnswerValue.s "Yes") = some t) :
    t.queue = s.queue.take (s.currentIndex + 1) ++ (industryTable q.id).filterMap (qlookup s.pool) ∧
    t.currentIndex = s.currentIndex + 1 ∧
    t.queue.get? t.currentIndex = ((industryTable q.id).head?).bind (qlookup s.pool) := by
  have hgate : gateToken q (AnswerValue.s "Yes") = some Answer.yes := by
    unfold gateToken; rw [hbtn, if_pos rfl]; rfl
  have hilt : s.currentIndex < s.queue.length := (List.get?_eq_some.mp hq).1
  have htl : (s.queue.take (s.currentIndex + 1)).length = s.currentIndex + 1 := by
    rw [List.length_take]; omega
  unfold stepAnswer at hstep
  rw [hq] at hstep
  dsimp only at hstep
  rw [hgate] at hstep
  dsimp only at hstep
  rw [if_pos ⟨hini, rfl⟩, hne] at hstep
  simp only [Bool.false_eq_true, if_false, Option.some.injEq] at hstep
  refine ⟨by rw [← hstep], by rw [← hstep], ?_⟩
  rw [← hstep]
  dsimp only
  rw [List.get?_append_right (le_of_eq htl), htl]
  simp only [Nat.sub_self]
  cases htab : industryTable q.id with
  | nil => rw [htab] at hne; simp at hne
  | cons n rest =>
    have hsome := hall n (htab ▸ List.mem_cons_self n rest)
    obtain ⟨fq, hfq⟩ := Option.isSome_iff_exists.mp hsome
    simp [List.filterMap_cons, hfq]

def sC3w : SessionState :=
  { pool := ALL_QUESTIONS, queue := (initQuiz ALL_QUESTIONS).queue,
    currentIndex := 8, score := 0, complete := false, answers := [] }

def tC3w : SessionState := (stepAnswer sC3w (AnswerValue.s "Yes")).getD sC3w

theorem c3_witness :
    tC3w.queue = sC3w.queue.take 9 ++ (industryTable 6).filterMap (qlookup sC3w.pool) ∧
    tC3w.currentIndex = 8 + 1 ∧
    tC3w.queue.get? tC3w.currentIndex = ((industryTable 6).head?).bind (qlookup sC3w.pool) :=
  c3_jump_replaces_tail sC3w (mkQ 6 "9" true none "Office-based or lower-risk industry" 0 0 0 fuNone)
    tC3w (by decide) (by decide) (by decide) (by decide) (by decide) (by decide)

/-! ## C1: uniqueness of queue ids under one step -/

theorem not_mem_ids_of_memId_false {l : List Question} {i : Int} (h : memId l i = false) :
    i ∉ l.map (·.id) := by
  intro hmem
  obtain ⟨x, hx, hxid⟩ := List.mem_map.mp hmem
  exact memId_eq_false h x hx hxid

theorem nodup_insert_ids (L X : List Int) (n : Nat)
    (hL : L.Nodup) (hX : X.Nodup) (hd : ∀ x ∈ X, x ∉ L) :
    (L.take n ++ X ++ L.drop n).Nodup := by
  rw [List.append_assoc, List.nodup_append]
  refine ⟨hL.sublist (List.take_sublist n L), ?_, ?_⟩
  · rw [List.nodup_append]
    exact ⟨hX, hL.sublist (List.drop_sublist n L),
      fun a haX haD => hd a haX ((List.drop_sublist n L).subset haD)⟩
  · intro a haT haXD
    have haL : a ∈ L := (List.take_sublist n L).subset haT
    rcases List.mem_append.mp haXD with haX | haD
    · exact hd a haX haL
    · have hnd : (L.take n ++ L.drop n).Nodup := by
        rw [List.take_append_drop]; exact hL
      exact (List.nodup_append.mp hnd).2.2 haT haD

theorem nodup_insertAt (l xs : List Question) (n : Nat)
    (hl : (l.map (·.id)).Nodup) (hxs : (xs.map (·.id)).Nodup)
    (hd : ∀ x ∈ xs, x.id ∉ l.map (·.id)) :
    ((l.take n ++ xs ++ l.drop n).map (·.id)).Nodup := by
  have hsplit : (l.take n ++ xs ++ l.drop n).map (·.id)
      = (l.map (·.id)).take n ++ xs.map (·.id) ++ (l.map (·.id)).drop n := by
    rw [List.map_append, List.map_append, List.map_take, List.map_drop]
  rw [hsplit]
  refine nodup_insert_ids _ _ n hl hxs ?_
  intro x hx
  obtain ⟨y, hy, hyx⟩ := List.mem_map.mp hx
  exact hyx ▸ hd y hy

theorem followUpSplice_preserves_nodup (pool : List Question) (i : Nat) (q : Question)
    (a : Answer) (nq : List Question) (h : (nq.map (·.id)).Nodup) :
    ((followUpSplice pool i q a nq).map (·.id)).Nodup := by
  unfold followUpSplice
  cases hfu : q.followUp.get a with
  | absent => exact h
  | blank => exact h
  | target n =>
    dsimp only
    by_cases hn : n = 0
    · rw [if_neg (fun hcon => hcon hn)]; exact h
    · rw [if_pos hn]
      cases hlk : qlookup pool n with
      | none => exact h
      | some fq =>
        dsimp only
        by_cases hm : memId nq fq.id = true
        · rw [if_pos hm]; exact h
        · rw [if_neg hm]
          have hm2 : memId nq fq.id = false := Bool.eq_false_iff.mpr hm
          have hins := nodup_insertAt nq [fq] (i + 1) h (by simp)
            (by
              intro x hx
              rw [List.mem_singleton.mp hx]
              exact not_mem_ids_of_memId_false hm2)
          rw [List.append_assoc, List.singleton_append] at hins
          exact hins

theorem candidateInject_cases (pool nq : List Question) (n : Int) :
    candidateInject pool nq n = [] ∨
    ∃ cq, candidateInject pool nq n = [cq] ∧ cq.id = n ∧ cq.id ∉ nq.map (·.id) := by
  unfold candidateInject
  cases hlk : qlookup pool n with
  | none => exact Or.inl rfl
  | some cq =>
    dsimp only
    by_cases hm : memId nq cq.id = true
    · rw [if_pos hm]; exact Or.inl rfl
    · rw [if_neg hm]
      exact Or.inr ⟨cq, rfl, qlookup_id hlk,
        not_mem_ids_of_memId_false (Bool.eq_false_iff.mpr hm)⟩

theorem specialInject_preserves_nodup (pool : List Question) (i : Nat) (v : AnswerValue)
    (nq : List Question) (h : (nq.map (·.id)).Nodup) :
    ((specialInject pool i v nq).map (·.id)).Nodup := by
  unfold specialInject
  dsimp only
  have hgen : ∀ xs : List Question, (xs.map (·.id)).Nodup → (∀ x ∈ xs, x.id ∉ nq.map (·.id)) →
      ((if xs.isEmpty then nq else nq.take (i + 1) ++ xs ++ nq.drop (i + 1)).map (·.id)).Nodup := by
    intro xs hxs hd
    by_cases he : xs.isEmpty
    · rw [if_pos he]; exact h
    · rw [if_neg he]; exact nodup_insertAt nq xs (i + 1) h hxs hd
  have h700 := candidateInject_cases pool nq 700
  by_cases hc : isCalifornia v = true
  · rw [if_pos hc]
    rcases candidateInject_cases pool nq 600 with h6 | ⟨cq, h6, hid6, hnm6⟩ <;>
      rcases h700 with h7 | ⟨wq, h7, hid7, hnm7⟩ <;> rw [h6, h7]
    · exact hgen [] (by simp) (by simp)
    · refine hgen ([] ++ [wq]) (by simp) ?_
      intro x hx
      rw [List.nil_append] at hx
      rw [List.mem_singleton.mp hx]
      exact hnm7
    · refine hgen ([cq] ++ []) (by simp) ?_
      intro x hx
      rw [List.append_nil] at hx
      rw [List.mem_singleton.mp hx]
      exact hnm6
    · refine hgen ([cq] ++ [wq]) ?_ ?_
      · simp [hid6, hid7]
      · intro x hx
        rcases List.mem_append.mp hx with hx | hx <;> rw [List.mem_singleton.mp hx]
        · exact hnm6
        · exact hnm7
  · rw [if_neg hc]
    rcases h700 with h7 | ⟨wq, h7, hid7, hnm7⟩ <;> rw [h7]
    · exact hgen [] (by simp) (by simp)
    · refine hgen ([] ++ [wq]) (by simp) ?_
      intro x hx
      rw [List.nil_append] at hx
      rw [List.mem_singleton.mp hx]
      exact hnm7

/-- The side condition the jump step would need for idempotent
insertion: the filtered classification list is duplicate-free by id and
disjoint from the retained prefix.  The source checks neither; the
follow-up and special-injection steps check membership themselves. -/
def jumpSafe (s : SessionState) (v : AnswerValue) : Bool :=
  match s.queue.get? s.currentIndex with
  | none => true
  | some q =>
    match gateToken q v with
    | some a =>
      if q.isInitial ∧ a = Answer.yes then
        decide ((((industryTable q.id).filterMap (qlookup s.pool)).map (·.id)).Nodup ∧
          ∀ x ∈ ((industryTable q.id).filterMap (qlookup s.pool)).map (·.id),
            x ∉ (s.queue.take (s.currentIndex + 1)).map (·.id))
      else true
    | none => true

/-- **C1 (amended)**: the standard follow-up insertion and the special
multi-injection check queue membership by id and preserve uniqueness of
queue ids unconditionally; the jump step performs no membership check —
it preserves uniqueness only under the side condition `jumpSafe` (its
filtered classification list duplicate-free and disjoint from the kept
prefix), which the reference configuration satisfies but an arbitrary
pool can violate. -/
theorem c1_step_preserves_nodup (s : SessionState) (v : AnswerValue) (t : SessionState)
    (hnd : (queueIds s).Nodup) (hsafe : jumpSafe s v = true)
    (hstep : stepAnswer s v = some t) : (queueIds t).Nodup := by
  unfold queueIds at hnd ⊢
  unfold stepAnswer at hstep
  unfold jumpSafe at hsafe
  cases hq : s.queue.get? s.currentIndex with
  | none => rw [hq] at hstep; cases hstep
  | some q =>
    rw [hq] at hstep hsafe
    dsimp only at hstep hsafe
    cases hg : gateToken q v with
    | none =>
      rw [hg] at hstep
      dsimp only at hstep
      simp only [Option.some.injEq] at hstep
      rw [← hstep, advance_queue]
      by_cases h9 : q.id = 9
      · rw [if_pos h9]; exact specialInject_preserves_nodup _ _ _ _ hnd
      · rw [if_neg h9]; exact hnd
    | some a =>
      rw [hg] at hstep hsafe
      dsimp only at hstep hsafe
      by_cases hj : q.isInitial = true ∧ a = Answer.yes
      · rw [if_pos hj] at hstep hsafe
        by_cases hti : (industryTable q.id).isEmpty
        · rw [if_pos hti] at hstep
          simp only [Option.some.injEq] at hstep
          rw [← hstep]
          exact hnd
        · rw [if_neg hti] at hstep
          simp only [Option.some.injEq] at hstep
          rw [← hstep]
          dsimp only
          obtain ⟨hdy, hdj⟩ := of_decide_eq_true hsafe
          rw [List.map_append, List.map_take, List.nodup_append]
          refine ⟨(hnd.sublist (List.take_sublist _ _)), hdy, ?_⟩
          intro x hxT hxD
          exact hdj x hxD (by rw [List.map_take]; exact hxT)
      · rw [if_neg hj] at hstep
        simp only [Option.some.injEq] at hstep
        rw [← hstep, advance_queue]
        have h1 := followUpSplice_preserves_nodup s.pool s.currentIndex q a s.queue hnd
        by_cases h9 : q.id = 9
        · rw [if_pos h9]; exact specialInject_preserves_nodup _ _ _ _ h1
        · rw [if_neg h9]; exact h1

def sC1w : SessionState :=
  { pool := ALL_QUESTIONS, queue := (initQuiz ALL_QUESTIONS).queue,
    currentIndex := 3, score := 0, complete := false, answers := [] }

def tC1w : SessionState := (stepAnswer sC1w (AnswerValue.s "Yes")).getD sC1w

theorem c1_witness : (queueIds tC1w).Nodup :=
  c1_step_preserves_nodup sC1w (AnswerValue.s "Yes") tC1w (by decide) (by decide) (by decide)

/-! ## C8: cascade delete -/

/-- Decidable statement of the cascade-delete property: no surviving
question is the deleted one and none of its follow-up entries targets it. -/
def noRefsTo (x : Int) (qs : List Question) : Bool :=
  qs.all (fun q => decide (¬ q.id = x) &&
    decide (¬ q.followUp.yes = FollowUpEntry.target x) &&
    decide (¬ q.followUp.no = FollowUpEntry.target x) &&
    decide (¬ q.followUp.na = FollowUpEntry.target x))

theorem stripFollowUpEntry_ne (x : Int) (e : FollowUpEntry) :
    ¬ stripFollowUpEntry x e = FollowUpEntry.target x := by
  cases e with
  | absent => simp [stripFollowUpEntry]
  | blank => simp [stripFollowUpEntry]
  | target n =>
    unfold stripFollowUpEntry
    by_cases hn : n = x
    · simp [hn]
    · simp [hn]

theorem deleteQuestionPre_prop (qs : List Question) (x : Int) :
    ∀ q ∈ deleteQuestionPre qs x, ¬ q.id = x ∧
      ¬ q.followUp.yes = FollowUpEntry.target x ∧
      ¬ q.followUp.no = FollowUpEntry.target x ∧
      ¬ q.followUp.na = FollowUpEntry.target x := by
  intro q hq
  unfold deleteQuestionPre at hq
  obtain ⟨b, hb, hbq⟩ := List.mem_map.mp hq
  have hbid : ¬ b.id = x := of_decide_eq_true (List.mem_filter.mp hb).2
  rw [← hbq]
  exact ⟨hbid, stripFollowUpEntry_ne x _, stripFollowUpEntry_ne x _, stripFollowUpEntry_ne x _⟩

/-- Renumbering only rewrites display numbers: every question of a
successful result shares its id and follow-up record with a pool member. -/
theorem renumber_preserves (f : Nat) (ps : List Question) (out : List Question)
    (h : renumberQuestions f ps = some out) :
    ∀ r ∈ out, ∃ b ∈ ps, r.id = b.id ∧ r.followUp = b.followUp := by
  unfold renumberQuestions at h
  by_cases he : ps.isEmpty
  · rw [if_pos he] at h
    simp only [Option.some.injEq] at h
    intro r hr
    rw [← h] at hr
    cases hr
  · rw [if_neg he] at h
    dsimp only at h
    cases hassign : assignGo ps f []
        (sortByOrd (ordOf ps)
          ((ps.filter (fun q => ! decide (q.id ∈ allChildIds ps))).map (·.id))) "" 1 with
    | none => rw [hassign] at h; cases h
    | some nums =>
      rw [hassign] at h
      simp only [Option.some.injEq] at h
      intro r hr
      rw [← h] at hr
      obtain ⟨q, hq, hqr⟩ := List.mem_map.mp hr
      unfold applyNums at hqr
      cases hlk : qlookup ps q.id with
      | none =>
        rw [hlk] at hqr
        exact ⟨q, hq, by rw [← hqr], by rw [← hqr]⟩
      | some b =>
        rw [hlk] at hqr
        dsimp only at hqr
        exact ⟨b, qlookup_mem hlk, by rw [← hqr], by rw [← hqr]⟩

/-- **C8**: deleting a question removes it from the pool and strips every
follow-up entry targeting it from every remaining question, so after the
delete no surviving question references the deleted id. -/
theorem c8_cascade_delete (fuel : Nat) (qs : List Question) (x : Int) (out : List Question)
    (h : handleDeleteQuestion fuel qs x = some out) : noRefsTo x out = true := by
  unfold handleDeleteQuestion at h
  have hpres := renumber_preserves fuel _ out h
  rw [noRefsTo, List.all_eq_true]
  intro q hq
  obtain ⟨b, hb, hid, hfu⟩ := hpres q hq
  obtain ⟨h1, h2, h3, h4⟩ := deleteQuestionPre_prop qs x b hb
  simp only [Bool.and_eq_true, decide_eq_true_eq]
  exact ⟨⟨⟨by rw [hid]; exact h1, by rw [hfu]; exact h2⟩, by rw [hfu]; exact h3⟩,
    by rw [hfu]; exact h4⟩

def qsC8 : List Question := [mkQ 2 "" false none "" 0 0 0 (fuYes 20), fillerQ 20]

def outC8 : List Question := (handleDeleteQuestion 10 qsC8 20).getD []

theorem c8_witness : noRefsTo 20 outC8 = true :=
  c8_cascade_delete 10 qsC8 20 outC8 (by decide)

/-! ## C10: an absent controlType behaves exactly like buttons -/

/-- Replace an absent `controlType` by the explicit `buttons` type. -/
def normCT (q : Question) : Question :=
  if q.controlType = none then { q with controlType := some ControlType.buttons } else q

/-- Apply `normCT` throughout a session state. -/
def normState (s : SessionState) : SessionState :=
  { s with pool := s.pool.map normCT, queue := s.queue.map normCT }

theorem normCT_id (q : Question) : (normCT q).id = q.id := by
  unfold normCT; split <;> rfl

theorem normCT_isInitial (q : Question) : (normCT q).isInitial = q.isInitial := by
  unfold normCT; split <;> rfl

theorem normCT_riskPoints (q : Question) : (normCT q).riskPoints = q.riskPoints := by
  unfold normCT; split <;> rfl

theorem normCT_followUp (q : Question) : (normCT q).followUp = q.followUp := by
  unfold normCT; split <;> rfl

theorem isButton_normCT (q : Question) : isButton (normCT q) = isButton q := by
  unfold normCT
  by_cases h : q.controlType = none
  · rw [if_pos h]; simp [isButton, h]
  · rw [if_neg h]

theorem gateToken_normCT (q : Question) (v : AnswerValue) :
    gateToken (normCT q) v = gateToken q v := by
  unfold gateToken; rw [isButton_normCT]

theorem qlookup_map_normCT (pool : List Question) (n : Int) :
    qlookup (pool.map normCT) n = (qlookup pool n).map normCT := by
  induction pool with
  | nil => rfl
  | cons q rest ih =>
    simp only [List.map_cons]
    unfold qlookup
    rw [ih]
    cases hlk : qlookup rest n with
    | some r => rfl
    | none =>
      dsimp only [Option.map_none]
      rw [normCT_id]
      by_cases h : q.id = n
      · rw [if_pos h, if_pos h]; rfl
      · rw [if_neg h, if_neg h]; rfl

theorem memId_map_normCT (l : List Question) (n : Int) :
    memId (l.map normCT) n = memId l n := by
  unfold memId
  induction l with
  | nil => rfl
  | cons q rest ih =>
    simp only [List.map_cons, List.any_cons, normCT_id, ih]

theorem isEmpty_map_q (f : Question → Question) (l : List Question) :
    (l.map f).isEmpty = l.isEmpty := by
  cases l <;> rfl

theorem followUpSplice_normCT (pool : List Question) (i : Nat) (q : Question) (a : Answer)
    (nq : List Question) :
    followUpSplice (pool.map normCT) i (normCT q) a (nq.map normCT)
      = (followUpSplice pool i q a nq).map normCT := by
  unfold followUpSplice
  rw [normCT_followUp]
  cases hfu : q.followUp.get a with
  | absent => rfl
  | blank => rfl
  | target n =>
    dsimp only
    by_cases hn : n = 0
    · rw [if_neg (fun hc => hc hn), if_neg (fun hc => hc hn)]
    · rw [if_pos hn, if_pos hn, qlookup_map_normCT]
      cases hlk : qlookup pool n with
      | none => rfl
      | some fq =>
        dsimp only [Option.map]
        rw [normCT_id, memId_map_normCT]
        by_cases hm : memId nq fq.id = true
        · rw [if_pos hm, if_pos hm]
        · rw [if_neg hm, if_neg hm]
          simp only [List.map_append, List.map_cons, List.map_take, List.map_drop]

theorem candidateInject_normCT (pool nq : List Question) (n : Int) :
    candidateInject (pool.map normCT) (nq.map normCT) n
      = (candidateInject pool nq n).map normCT := by
  unfold candidateInject
  rw [qlookup_map_normCT]
  cases hlk : qlookup pool n with
  | none => rfl
  | some cq =>
    dsimp only [Option.map]
    rw [normCT_id, memId_map_normCT]
    by_cases hm : memId nq cq.id = true
    · rw [if_pos hm, if_pos hm]; rfl
    · rw [if_neg hm, if_neg hm]; rfl

theorem specialInject_normCT (pool : List Question) (i : Nat) (v : AnswerValue)
    (nq : List Question) :
    specialInject (pool.map normCT) i v (nq.map normCT)
      = (specialInject pool i v nq).map normCT := by
  unfold specialInject
  dsimp only
  rw [candidateInject_normCT, candidateInject_normCT]
  by_cases hc : isCalifornia v = true
  · rw [if_pos hc, if_pos hc, ← List.map_append, isEmpty_map_q]
    by_cases he : ((candidateInject pool nq 600) ++ (candidateInject pool nq 700)).isEmpty
    · rw [if_pos he, if_pos he]
    · rw [if_neg he, if_neg he]
      simp only [List.map_append, List.map_take, List.map_drop]
  · rw [if_neg hc, if_neg hc]
    simp only [List.nil_append, isEmpty_map_q]
    by_cases he : (candidateInject pool nq 700).isEmpty
    · rw [if_pos he, if_pos he]
    · rw [if_neg he, if_neg he]
      simp only [List.map_append, List.map_take, List.map_drop]

theorem advance_normCT (s : SessionState) (nq : List Question) (sc : Int)
    (an : List (Int × AnswerValue)) :
    advance (normState s) (nq.map normCT) sc an = normState (advance s nq sc an) := by
  unfold advance normState
  dsimp only
  rw [List.length_map]
  by_cases h : s.currentIndex + 1 < nq.length
  · rw [if_pos h, if_pos h]
  · rw [if_neg h, if_neg h]

theorem filterMap_qlookup_normCT (pool : List Question) (L : List Int) :
    L.filterMap (qlookup (pool.map normCT)) = (L.filterMap (qlookup pool)).map normCT := by
  induction L with
  | nil => rfl
  | cons n rest ih =>
    simp only [List.filterMap_cons]
    rw [qlookup_map_normCT]
    cases hlk : qlookup pool n with
    | none => simpa using ih
    | some b => simp [ih]

/-- The engine cannot distinguish an absent `controlType` from
`buttons`: normalising every absent control type to `buttons` commutes
with `handleAnswer`. -/
theorem stepAnswer_normState (s : SessionState) (v : AnswerValue) :
    stepAnswer (normState s) v = (stepAnswer s v).map normState := by
  unfold stepAnswer
  rw [show (normState s).queue = s.queue.map normCT from rfl,
    show (normState s).currentIndex = s.currentIndex from rfl,
    show (normState s).pool = s.pool.map normCT from rfl,
    show (normState s).answers = s.answers from rfl,
    show (normState s).score = s.score from rfl]
  rw [List.get?_map]
  cases hq : s.queue.get? s.currentIndex with
  | none => rfl
  | some q =>
    dsimp only [Option.map]
    rw [gateToken_normCT]
    cases hg : gateToken q v with
    | none =>
      dsimp only
      rw [normCT_id]
      by_cases h9 : q.id = 9
      · rw [if_pos h9, if_pos h9, specialInject_normCT, advance_normCT]
      · rw [if_neg h9, if_neg h9, advance_normCT]
    | some a =>
      dsimp only
      rw [normCT_id, normCT_isInitial, normCT_riskPoints]
      by_cases hj : q.isInitial = true ∧ a = Answer.yes
      · rw [if_pos hj, if_pos hj]
        by_cases hti : (industryTable q.id).isEmpty
        · rw [if_pos hti, if_pos hti]
          simp only [Option.map, normState]
        · rw [if_neg hti, if_neg hti]
          simp only [Option.map, normState, filterMap_qlookup_normCT,
            List.map_append, List.map_take]
      · rw [if_neg hj, if_neg hj, followUpSplice_normCT]
        by_cases h9 : q.id = 9
        · rw [if_pos h9, if_pos h9, specialInject_normCT, advance_normCT]
        · rw [if_neg h9, if_neg h9, advance_normCT]

theorem qlookup_append_self (qs : List Question) (b : Question) :
    qlookup (qs ++ [b]) b.id = some b := by
  induction qs with
  | nil => simp [qlookup]
  | cons q rest ih =>
    simp only [List.cons_append]
    unfold qlookup
    rw [ih]

theorem isEmpty_append_singleton (qs : List Question) (b : Question) :
    (qs ++ [b]).isEmpty = false := by
  cases qs <;> rfl

/-- The question created by `handleAddQuestion` survives renumbering
with its absent `controlType` intact (only its display number changes),
so an editor-added question behaves as a binary question in the quiz. -/
theorem handleAdd_new_button (f : Nat) (qs out : List Question)
    (h : handleAddQuestion f qs = some out) :
    (out.any fun q => decide (q.id = nextId qs) && decide (q.controlType = none)
      && isButton q) = true := by
  unfold handleAddQuestion renumberQuestions at h
  rw [isEmpty_append_singleton] at h
  dsimp only at h
  cases hassign : assignGo (qs ++ [mkNewQuestion (nextId qs)]) f []
      (sortByOrd (ordOf (qs ++ [mkNewQuestion (nextId qs)]))
        (((qs ++ [mkNewQuestion (nextId qs)]).filter
          (fun q => ! decide (q.id ∈ allChildIds (qs ++ [mkNewQuestion (nextId qs)])))).map (·.id)))
      "" 1 with
  | none => rw [hassign] at h; cases h
  | some nums =>
    rw [hassign] at h
    rw [if_neg Bool.false_ne_true] at h
    simp only [Option.some.injEq] at h
    rw [List.any_eq_true]
    have hmem : mkNewQuestion (nextId qs) ∈ qs ++ [mkNewQuestion (nextId qs)] :=
      List.mem_append.mpr (Or.inr (List.mem_singleton.mpr rfl))
    refine ⟨applyNums (qs ++ [mkNewQuestion (nextId qs)]) nums (mkNewQuestion (nextId qs)),
      ?_, ?_⟩
    · rw [← h]
      exact List.mem_map.mpr ⟨mkNewQuestion (nextId qs), hmem, rfl⟩
    · unfold applyNums
      rw [qlookup_append_self]
      simp [isButton, mkNewQuestion]

/-- **C10**: a question with an absent `controlType` is treated by the
queue engine exactly like the `buttons` type — replacing every absent
control type by `buttons` commutes with `handleAnswer` — and the
editor's Add operation creates its question without a `controlType`, so
it passes the button gate (scoring, follow-up and jump rules apply). -/
theorem c10_absent_controlType_buttons :
    (∀ (s : SessionState) (v : AnswerValue),
      stepAnswer (normState s) v = (stepAnswer s v).map normState) ∧
    (∀ (f : Nat) (qs out : List Question), handleAddQuestion f qs = some out →
      (out.any fun q => decide (q.id = nextId qs) && decide (q.controlType = none)
        && isButton q) = true) :=
  ⟨stepAnswer_normState, handleAdd_new_button⟩

def outC10 : List Question := (handleAddQuestion 5 []).getD []

theorem c10_witness :
    (outC10.any fun q => decide (q.id = nextId []) && decide (q.controlType = none)
      && isButton q) = true :=
  c10_absent_controlType_buttons.2 5 [] outC10 (by decide)

end RiskAssessment
